import Mathlib

/-!
# Verification of the trakt-toggl-sync reconciliation and deduplication engine

This development shallowly embeds the core of the `trakt-toggl-sync`
repository (files `src/trakt.py`, `src/toggl.py`, `src/sync.py`) in Lean and
proves or refutes the specified properties of the Source Deduplicator, the
Destination Cache, the Matcher/Creator, the Destination Deduplicator and the
rate-limit guard.

Modelling conventions:
* Python dicts used as identity maps are modelled as association lists with
  in-place update (`setKey`), which preserves Python's insertion-order
  semantics for `dict.values()` membership.
* Python `datetime` values (second precision, as produced and consumed by
  this program) are modelled by the `PyDateTime` structure; `timedelta`
  subtraction is calendar borrowing, exactly as naive-datetime arithmetic.
* Network calls are oracles: a fetch yields `FetchResult`, a create POST
  yields `PostResult`, a delete yields a status code drawn from a function
  `Nat → Nat`.  Raised exceptions are explicit `raised…` outcomes.
-/

/-! ## Generic association lists (model of Python `dict`) -/

section AssocList

variable {K V : Type} [DecidableEq K]

/-- `dict` lookup: first binding whose key matches. -/
def lookupKey : List (K × V) → K → Option V
  | [], _ => none
  | (k', v) :: rest, k => if k' = k then some v else lookupKey rest k

/-- `dict` assignment `m[k] = v`: replace in place if present, else append. -/
def setKey : List (K × V) → K → V → List (K × V)
  | [], k, v => [(k, v)]
  | (k', v') :: rest, k, v =>
    if k' = k then (k, v) :: rest else (k', v') :: setKey rest k v

/-- The keys of an association list. -/
def keysOf (m : List (K × V)) : List K := m.map Prod.fst

@[simp] theorem keysOf_nil : keysOf ([] : List (K × V)) = [] := rfl

@[simp] theorem keysOf_cons (p : K × V) (m : List (K × V)) :
    keysOf (p :: m) = p.1 :: keysOf m := rfl

theorem lookupKey_setKey_self (m : List (K × V)) (k : K) (v : V) :
    lookupKey (setKey m k v) k = some v := by
  induction m with
  | nil => simp [setKey, lookupKey]
  | cons p rest ih =>
    obtain ⟨k', v'⟩ := p
    by_cases h : k' = k
    · simp [setKey, h, lookupKey]
    · simp [setKey, h, lookupKey, ih]

theorem lookupKey_setKey_ne (m : List (K × V)) {k₁ k₂ : K} (v : V) (h : k₁ ≠ k₂) :
    lookupKey (setKey m k₁ v) k₂ = lookupKey m k₂ := by
  induction m with
  | nil => simp [setKey, lookupKey, h]
  | cons p rest ih =>
    obtain ⟨k', v'⟩ := p
    by_cases hk : k' = k₁
    · subst hk
      simp [setKey, lookupKey, h]
    · simp [setKey, hk, lookupKey, ih]

theorem mem_setKey {m : List (K × V)} {k : K} {v : V} {p : K × V}
    (h : p ∈ setKey m k v) : p ∈ m ∨ p = (k, v) := by
  induction m with
  | nil => simp [setKey] at h; simp [h]
  | cons q rest ih =>
    obtain ⟨k', v'⟩ := q
    by_cases hk : k' = k
    · simp [setKey, hk] at h
      rcases h with h | h
      · right; simp [h]
      · left; simp [h]
    · simp [setKey, hk] at h
      rcases h with h | h
      · left; simp [h]
      · rcases ih h with h' | h'
        · left; simp [h']
        · right; exact h'

theorem lookupKey_eq_none_iff {m : List (K × V)} {k : K} :
    lookupKey m k = none ↔ k ∉ keysOf m := by
  induction m with
  | nil => simp [lookupKey]
  | cons p rest ih =>
    obtain ⟨k', v'⟩ := p
    by_cases hk : k' = k
    · subst hk; simp [lookupKey]
    · rw [lookupKey, if_neg hk, keysOf_cons, ih]
      constructor
      · intro h hc
        rcases List.mem_cons.mp hc with hc | hc
        · exact hk hc.symm
        · exact h hc
      · intro h hc
        exact h (List.mem_cons_of_mem _ hc)

theorem keysOf_setKey_of_mem {m : List (K × V)} {k : K} (v : V)
    (h : k ∈ keysOf m) : keysOf (setKey m k v) = keysOf m := by
  induction m with
  | nil => simp at h
  | cons p rest ih =>
    obtain ⟨k', v'⟩ := p
    by_cases hk : k' = k
    · subst hk; simp [setKey]
    · have h' : k ∈ keysOf rest := by
        rcases List.mem_cons.mp (by simpa using h) with h1 | h1
        · exact absurd h1.symm hk
        · exact h1
      rw [setKey, if_neg hk, keysOf_cons, keysOf_cons, ih h']

theorem keysOf_setKey_of_not_mem {m : List (K × V)} {k : K} (v : V)
    (h : k ∉ keysOf m) : keysOf (setKey m k v) = keysOf m ++ [k] := by
  induction m with
  | nil => simp [setKey]
  | cons p rest ih =>
    obtain ⟨k', v'⟩ := p
    have hk : k' ≠ k := by
      intro he; subst he
      exact h (by simp)
    have h' : k ∉ keysOf rest := by
      intro hc
      exact h (by simp [hc])
    rw [setKey, if_neg hk, keysOf_cons, keysOf_cons, ih h']
    rfl

theorem mem_of_lookupKey {m : List (K × V)} {k : K} {v : V}
    (h : lookupKey m k = some v) : (k, v) ∈ m := by
  induction m with
  | nil => simp [lookupKey] at h
  | cons p rest ih =>
    obtain ⟨k', v'⟩ := p
    by_cases hk : k' = k
    · subst hk
      simp [lookupKey] at h
      simp [h]
    · simp [lookupKey, hk] at h
      simp [ih h]

theorem lookupKey_of_mem_of_nodup {m : List (K × V)} {k : K} {v : V}
    (hnd : (keysOf m).Nodup) (h : (k, v) ∈ m) : lookupKey m k = some v := by
  induction m with
  | nil => simp at h
  | cons p rest ih =>
    obtain ⟨k', v'⟩ := p
    rw [keysOf, List.map_cons, List.nodup_cons] at hnd
    rcases List.mem_cons.mp h with h | h
    · injection h with h1 h2
      subst h1; subst h2
      simp [lookupKey]
    · have hk : k' ≠ k := by
        intro he
        subst he
        exact hnd.1 (by simpa using List.mem_map_of_mem Prod.fst h)
      rw [lookupKey, if_neg hk]
      exact ih hnd.2 h

theorem lookupKey_isSome_of_mem_keys {m : List (K × V)} {k : K}
    (h : k ∈ keysOf m) : (lookupKey m k).isSome := by
  cases hl : lookupKey m k with
  | none => exact absurd (lookupKey_eq_none_iff.mp hl) (by simp [h])
  | some v => simp

end AssocList

/-! ## Source (Trakt) history records and the Source Deduplicator

Embeds `TraktAPI.remove_duplicates` (src/trakt.py lines 153-191; the
overlapping historical copy in src/sync.py lines 182-220 is identical logic).
A history record carries the fields the program reads; Python's structural
dict equality `entry not in unique_items.values()` is modelled by structural
equality of `HistoryEntry`. -/

/-- Lexicographic comparison of code-point sequences: Python's `<` on `str`. -/
def chListLt : List Char → List Char → Bool
  | [], [] => false
  | [], _ :: _ => true
  | _ :: _, [] => false
  | a :: as, b :: bs =>
    if a.toNat < b.toNat then true
    else if b.toNat < a.toNat then false
    else chListLt as bs

/-- Python string `<`, applied by the program to ISO-8601 `watched_at` strings. -/
def pyStrLt (a b : String) : Bool := chListLt a.data b.data

theorem chListLt_irrefl (l : List Char) : chListLt l l = false := by
  induction l with
  | nil => rfl
  | cons a as ih => simp [chListLt, ih]

theorem pyStrLt_irrefl (s : String) : pyStrLt s s = false :=
  chListLt_irrefl s.data

structure HistoryEntry where
  /-- The history event id (`entry["id"]`), used in the bulk-remove payload. -/
  id : Nat
  /-- `entry["type"]`: `"movie"` or `"episode"`. -/
  etype : String
  /-- `entry.get("movie", {}).get("ids", {}).get("trakt")`; `none` when absent. -/
  movieTraktId : Option Nat
  /-- `entry.get("episode", {}).get("ids", {}).get("trakt")`; `none` when absent. -/
  episodeTraktId : Option Nat
  /-- `entry["watched_at"]`, an ISO-8601 string compared lexicographically. -/
  watched_at : String
  /-- `entry["show"]["title"]` (episodes). -/
  showTitle : String
  /-- `entry["episode"]["season"]`. -/
  episodeSeason : Nat
  /-- `entry["episode"]["number"]`. -/
  episodeNumber : Nat
  /-- `entry["episode"]["title"]`. -/
  episodeTitle : String
  /-- `entry["episode"]["runtime"]`. -/
  episodeRuntime : Nat
  /-- `entry["movie"]["title"]`. -/
  movieTitle : String
  /-- `entry["movie"].get("year")`; `none` when absent. -/
  movieYear : Option Nat
  /-- `entry["movie"].get("runtime")`; `none` when absent (defaulted to 0). -/
  movieRuntime : Option Nat
  deriving DecidableEq, Repr

/-- The dedup key pair built in `remove_duplicates`:
`("movie", movie ids.trakt)` for movies, else `("episode", episode ids.trakt)`. -/
def itemKey (e : HistoryEntry) : String × Option Nat :=
  if e.etype = "movie" then ("movie", e.movieTraktId) else ("episode", e.episodeTraktId)

/-- The guard `if not item_key[1]: continue`: a key is usable only when the
trakt id is present and non-zero (Python truthiness of the id). -/
def keyOf (e : HistoryEntry) : Option (String × Nat) :=
  match itemKey e with
  | (t, some i) => if i = 0 then none else some (t, i)
  | (_, none) => none

/-- One iteration of the `for entry in history` loop building `unique_items`:
skip keyless records; insert on first sight; replace only when the candidate's
`watched_at` is strictly greater than the kept record's. -/
def dedupStep (m : List ((String × Nat) × HistoryEntry)) (e : HistoryEntry) :
    List ((String × Nat) × HistoryEntry) :=
  match keyOf e with
  | none => m
  | some k =>
    match lookupKey m k with
    | none => setKey m k e
    | some kept => if pyStrLt kept.watched_at e.watched_at then setKey m k e else m

/-- The `unique_items` dict after scanning a suffix of the history, starting
from accumulator `m`. -/
def buildUniqueFrom (m : List ((String × Nat) × HistoryEntry)) :
    List HistoryEntry → List ((String × Nat) × HistoryEntry)
  | [] => m
  | e :: rest => buildUniqueFrom (dedupStep m e) rest

/-- The full `unique_items` dict for a fetched history. -/
def buildUnique (h : List HistoryEntry) : List ((String × Nat) × HistoryEntry) :=
  buildUniqueFrom [] h

/-- `unique_items.values()`. -/
def uniqueValues (h : List HistoryEntry) : List HistoryEntry :=
  (buildUnique h).map Prod.snd

/-- `duplicates = [entry for entry in history if entry not in unique_items.values()]`. -/
def duplicatesTrakt (h : List HistoryEntry) : List HistoryEntry :=
  h.filter (fun e => !(decide (e ∈ uniqueValues h)))

/-- The bulk-remove payload `{"ids": [entry["id"] for entry in duplicates]}`. -/
def removeIdsPayload (h : List HistoryEntry) : List Nat :=
  (duplicatesTrakt h).map (·.id)

/-- The dataset that remains on Trakt after the deduplication pass deletes
`duplicatesTrakt h`. -/
def dedupResult (h : List HistoryEntry) : List HistoryEntry :=
  h.filter (fun e => decide (e ∈ uniqueValues h))

/-! ### Well-formedness of the identity map and idempotence machinery -/

/-- Invariant of `unique_items`: every stored record carries its own key and
keys are pairwise distinct. -/
def WFMap (m : List ((String × Nat) × HistoryEntry)) : Prop :=
  (∀ p ∈ m, keyOf p.2 = some p.1) ∧ (keysOf m).Nodup

theorem mem_keysOf_of_lookupKey {K V : Type} [DecidableEq K]
    {m : List (K × V)} {k : K} {v : V}
    (h : lookupKey m k = some v) : k ∈ keysOf m := by
  simpa [keysOf] using List.mem_map_of_mem Prod.fst (mem_of_lookupKey h)

theorem wf_setKey {m : List ((String × Nat) × HistoryEntry)}
    {k : String × Nat} {e : HistoryEntry}
    (hm : WFMap m) (hke : keyOf e = some k) : WFMap (setKey m k e) := by
  constructor
  · intro p hp
    rcases mem_setKey hp with h | h
    · exact hm.1 p h
    · subst h; simpa using hke
  · by_cases hkm : k ∈ keysOf m
    · rw [keysOf_setKey_of_mem _ hkm]; exact hm.2
    · rw [keysOf_setKey_of_not_mem _ hkm]
      refine hm.2.append (by simp) ?_
      intro a ha hb
      simp at hb
      subst hb
      exact hkm ha

theorem wf_dedupStep {m : List ((String × Nat) × HistoryEntry)}
    {e : HistoryEntry} (hm : WFMap m) : WFMap (dedupStep m e) := by
  rcases hk : keyOf e with _ | k
  · simpa [dedupStep, hk] using hm
  · rcases hl : lookupKey m k with _ | kept
    · simp only [dedupStep, hk, hl]
      exact wf_setKey hm hk
    · simp only [dedupStep, hk, hl]
      split_ifs with hw
      · exact wf_setKey hm hk
      · exact hm

theorem wf_buildUniqueFrom {m : List ((String × Nat) × HistoryEntry)}
    {l : List HistoryEntry} (hm : WFMap m) : WFMap (buildUniqueFrom m l) := by
  induction l generalizing m with
  | nil => simpa [buildUniqueFrom] using hm
  | cons e rest ih =>
    rw [buildUniqueFrom]
    exact ih (wf_dedupStep hm)

theorem wf_buildUnique (h : List HistoryEntry) : WFMap (buildUnique h) :=
  wf_buildUniqueFrom ⟨fun p hp => absurd hp (List.not_mem_nil p), List.nodup_nil⟩

theorem mem_dedupStep {m : List ((String × Nat) × HistoryEntry)}
    {e : HistoryEntry} {p : (String × Nat) × HistoryEntry}
    (hp : p ∈ dedupStep m e) : p ∈ m ∨ p.2 = e := by
  rcases hk : keyOf e with _ | k
  · simp only [dedupStep, hk] at hp
    exact Or.inl hp
  · rcases hl : lookupKey m k with _ | kept
    · simp only [dedupStep, hk, hl] at hp
      rcases mem_setKey hp with h | h
      · exact Or.inl h
      · subst h; exact Or.inr rfl
    · simp only [dedupStep, hk, hl] at hp
      split_ifs at hp with hw
      · rcases mem_setKey hp with h | h
        · exact Or.inl h
        · subst h; exact Or.inr rfl
      · exact Or.inl hp

theorem mem_buildUniqueFrom {m : List ((String × Nat) × HistoryEntry)}
    {l : List HistoryEntry} {p : (String × Nat) × HistoryEntry}
    (hp : p ∈ buildUniqueFrom m l) : p ∈ m ∨ p.2 ∈ l := by
  induction l generalizing m with
  | nil => exact Or.inl (by simpa [buildUniqueFrom] using hp)
  | cons e rest ih =>
    rw [buildUniqueFrom] at hp
    rcases ih hp with h | h
    · rcases mem_dedupStep h with h' | h'
      · exact Or.inl h'
      · exact Or.inr (by simp [h'])
    · exact Or.inr (List.mem_cons_of_mem _ h)

theorem lookup_isSome_dedupStep {m : List ((String × Nat) × HistoryEntry)}
    {e : HistoryEntry} {k : String × Nat}
    (h : (lookupKey m k).isSome) : (lookupKey (dedupStep m e) k).isSome := by
  rcases hk : keyOf e with _ | k'
  · simpa [dedupStep, hk] using h
  · rcases hl : lookupKey m k' with _ | kept
    · simp only [dedupStep, hk, hl]
      by_cases hkk : k' = k
      · subst hkk; rw [lookupKey_setKey_self]; simp
      · rw [lookupKey_setKey_ne _ _ hkk]; exact h
    · simp only [dedupStep, hk, hl]
      split_ifs with hw
      · by_cases hkk : k' = k
        · subst hkk; rw [lookupKey_setKey_self]; simp
        · rw [lookupKey_setKey_ne _ _ hkk]; exact h
      · exact h

theorem lookup_isSome_buildUniqueFrom {m : List ((String × Nat) × HistoryEntry)}
    {l : List HistoryEntry} {k : String × Nat}
    (h : (lookupKey m k).isSome) : (lookupKey (buildUniqueFrom m l) k).isSome := by
  induction l generalizing m with
  | nil => simpa [buildUniqueFrom] using h
  | cons e rest ih =>
    rw [buildUniqueFrom]
    exact ih (lookup_isSome_dedupStep h)

theorem lookup_isSome_dedupStep_self {m : List ((String × Nat) × HistoryEntry)}
    {e : HistoryEntry} {k : String × Nat}
    (hk : keyOf e = some k) : (lookupKey (dedupStep m e) k).isSome := by
  rcases hl : lookupKey m k with _ | kept
  · simp only [dedupStep, hk, hl]
    rw [lookupKey_setKey_self]; simp
  · simp only [dedupStep, hk, hl]
    split_ifs with hw
    · rw [lookupKey_setKey_self]; simp
    · rw [hl]; simp

theorem key_present_buildUniqueFrom {m : List ((String × Nat) × HistoryEntry)}
    {l : List HistoryEntry} {e : HistoryEntry} {k : String × Nat}
    (he : e ∈ l) (hk : keyOf e = some k) :
    (lookupKey (buildUniqueFrom m l) k).isSome := by
  induction l generalizing m with
  | nil => cases he
  | cons a rest ih =>
    rw [buildUniqueFrom]
    rcases List.mem_cons.mp he with h | h
    · subst h
      exact lookup_isSome_buildUniqueFrom (lookup_isSome_dedupStep_self hk)
    · exact ih h

/-- Core of dedup idempotence: every record surviving a dedup pass is again a
kept value when the pass is re-run on the surviving dataset. -/
theorem kept_mem_uniqueValues_self {h : List HistoryEntry} {e : HistoryEntry}
    (he : e ∈ dedupResult h) : e ∈ uniqueValues (dedupResult h) := by
  have hwf : WFMap (buildUnique h) := wf_buildUnique h
  have hwf2 : WFMap (buildUnique (dedupResult h)) := wf_buildUnique (dedupResult h)
  have he' := List.mem_filter.mp he
  have hev : e ∈ uniqueValues h := of_decide_eq_true he'.2
  obtain ⟨⟨k, e'⟩, hpmem, hpe⟩ := List.mem_map.mp hev
  have hpe' : e' = e := hpe
  subst hpe'
  have hke : keyOf e' = some k := hwf.1 (k, e') hpmem
  have hsome : (lookupKey (buildUnique (dedupResult h)) k).isSome :=
    key_present_buildUniqueFrom he hke
  obtain ⟨w, hw⟩ := Option.isSome_iff_exists.mp hsome
  have hwmem : (k, w) ∈ buildUnique (dedupResult h) := mem_of_lookupKey hw
  have hwin : w ∈ dedupResult h := by
    rcases mem_buildUniqueFrom hwmem with h0 | h0
    · cases h0
    · exact h0
  have hwv : w ∈ uniqueValues h := of_decide_eq_true (List.mem_filter.mp hwin).2
  have hkw : keyOf w = some k := hwf2.1 (k, w) hwmem
  obtain ⟨⟨k', w'⟩, hqmem, hqw⟩ := List.mem_map.mp hwv
  have hqw' : w' = w := hqw
  subst hqw'
  have hk' : keyOf w' = some k' := hwf.1 (k', w') hqmem
  have hkk : k' = k := by
    rw [hk'] at hkw
    exact Option.some_inj.mp hkw
  subst hkk
  have h1 : lookupKey (buildUnique h) k' = some e' := lookupKey_of_mem_of_nodup hwf.2 hpmem
  have h2 : lookupKey (buildUnique h) k' = some w' := lookupKey_of_mem_of_nodup hwf.2 hqmem
  have hew : e' = w' := by
    rw [h1] at h2
    exact Option.some_inj.mp h2
  subst hew
  exact List.mem_map.mpr ⟨(k', e'), hwmem, rfl⟩

/-! ### Claim theorems for the Source Deduplicator -/

/-- A movie history record carrying no trakt id (identity key absent). -/
def keylessMovie : HistoryEntry :=
  { id := 7, etype := "movie", movieTraktId := none, episodeTraktId := none,
    watched_at := "2025-01-02T10:00:00Z", showTitle := "", episodeSeason := 0,
    episodeNumber := 0, episodeTitle := "", episodeRuntime := 0,
    movieTitle := "Unknown", movieYear := none, movieRuntime := none }

/-- C1: evaluating `remove_duplicates` on a history whose only record lacks an
identity key.  The record is excluded from `unique_items`, hence fails the
`entry not in unique_items.values()` test, lands in the duplicate set, and its
id is sent in the bulk-remove payload — the record is deleted, not retained. -/
theorem trakt_dedup_deletes_keyless_record :
    keyOf keylessMovie = none ∧
    duplicatesTrakt [keylessMovie] = [keylessMovie] ∧
    removeIdsPayload [keylessMovie] = [7] := by
  refine ⟨rfl, ?_, ?_⟩ <;> rfl

/-- Earlier-scanned of two records tied on (kind, identity) and watched-at. -/
def tieFirst : HistoryEntry :=
  { id := 1, etype := "movie", movieTraktId := some 42, episodeTraktId := none,
    watched_at := "2025-03-01T20:00:00Z", showTitle := "", episodeSeason := 0,
    episodeNumber := 0, episodeTitle := "", episodeRuntime := 0,
    movieTitle := "Heat", movieYear := some 1995, movieRuntime := some 170 }

/-- Later-scanned record with the same key and the same watched-at instant. -/
def tieSecond : HistoryEntry :=
  { id := 2, etype := "movie", movieTraktId := some 42, episodeTraktId := none,
    watched_at := "2025-03-01T20:00:00Z", showTitle := "", episodeSeason := 0,
    episodeNumber := 0, episodeTitle := "", episodeRuntime := 0,
    movieTitle := "Heat", movieYear := some 1995, movieRuntime := some 170 }

/-- C2 counterexample: on a watched-at tie the map entry is NOT replaced — the
comparison `unique_items[item_key]["watched_at"] < entry["watched_at"]` is
strict — so the earlier-scanned record stays kept and is not classified as a
duplicate, contrary to the claim. -/
theorem trakt_dedup_tie_cex :
    lookupKey (buildUnique [tieFirst, tieSecond]) ("movie", 42) ≠ some tieSecond ∧
    tieFirst ∉ duplicatesTrakt [tieFirst, tieSecond] := by
  constructor
  · intro hcontra
    have : tieFirst = tieSecond := by
      have h1 : lookupKey (buildUnique [tieFirst, tieSecond]) ("movie", 42) =
          some tieFirst := by decide
      rw [h1] at hcontra
      exact Option.some_inj.mp hcontra
    simp [tieFirst, tieSecond] at this
  · intro hcontra
    have h1 : duplicatesTrakt [tieFirst, tieSecond] = [tieSecond] := by decide
    rw [h1] at hcontra
    have : tieFirst = tieSecond := by simpa using hcontra
    simp [tieFirst, tieSecond] at this

/-- C2 amended: for two records with the same identity key and equal watched-at
instants, the identity map keeps the earlier-scanned record (replacement
happens only on a strictly greater watched-at), so the later-scanned tied
record is the one classified as a duplicate. -/
theorem trakt_dedup_tie_keeps_earlier (e₁ e₂ : HistoryEntry) (k : String × Nat)
    (h₁ : keyOf e₁ = some k) (h₂ : keyOf e₂ = some k)
    (hw : e₁.watched_at = e₂.watched_at) (hne : e₂ ≠ e₁) :
    lookupKey (buildUnique [e₁, e₂]) k = some e₁ ∧
    duplicatesTrakt [e₁, e₂] = [e₂] := by
  have s1 : dedupStep [] e₁ = [(k, e₁)] := by
    simp [dedupStep, h₁, lookupKey, setKey]
  have s2 : dedupStep [(k, e₁)] e₂ = [(k, e₁)] := by
    simp only [dedupStep, h₂, lookupKey, if_pos rfl, ← hw]
    simp [pyStrLt_irrefl]
  have hb : buildUnique [e₁, e₂] = [(k, e₁)] := by
    rw [buildUnique, buildUniqueFrom, s1, buildUniqueFrom, s2, buildUniqueFrom]
  have hv : uniqueValues [e₁, e₂] = [e₁] := by
    rw [uniqueValues, hb]; rfl
  refine ⟨by rw [hb]; simp [lookupKey], ?_⟩
  rw [duplicatesTrakt, hv]
  simp [List.filter, hne]

/-- C2 amended, witnessed at the tied concrete pair. -/
theorem trakt_dedup_tie_keeps_earlier_witness :
    lookupKey (buildUnique [tieFirst, tieSecond]) ("movie", 42) = some tieFirst ∧
    duplicatesTrakt [tieFirst, tieSecond] = [tieSecond] :=
  trakt_dedup_tie_keeps_earlier tieFirst tieSecond ("movie", 42)
    (by rfl) (by rfl) (by rfl) (by decide)

/-- C3: the Source Deduplicator is idempotent — re-running the dedup selection
on the dataset that survives a pass finds no duplicates, and the surviving
dataset is a fixed point of the pass. -/
theorem trakt_dedup_idempotent (h : List HistoryEntry) :
    duplicatesTrakt (dedupResult h) = [] ∧
    dedupResult (dedupResult h) = dedupResult h := by
  have key : ∀ e ∈ dedupResult h, e ∈ uniqueValues (dedupResult h) :=
    fun e he => kept_mem_uniqueValues_self he
  constructor
  · have hnil : (dedupResult h).filter
        (fun e => !(decide (e ∈ uniqueValues (dedupResult h)))) = [] := by
      apply List.eq_nil_iff_forall_not_mem.mpr
      intro e hmem
      have hm := List.mem_filter.mp hmem
      have hx : e ∈ uniqueValues (dedupResult h) := key e hm.1
      have h2 := hm.2
      simp [hx] at h2
    exact hnil
  · have hself : (dedupResult h).filter
        (fun e => decide (e ∈ uniqueValues (dedupResult h))) = dedupResult h := by
      apply List.filter_eq_self.mpr
      intro e he
      exact decide_eq_true (key e he)
    exact hself

/-! ## Naive datetimes (Python `datetime`, second precision)

`process_history_item` (src/sync.py lines 464-487) parses
`watched_at[:-1]` with `datetime.fromisoformat`, subtracts
`timedelta(minutes=runtime)` and prints with `isoformat()`.  The model keeps
second precision (the program's data carries no sub-second component) and
implements `timedelta` subtraction as calendar borrowing, which is exactly
naive-datetime arithmetic. -/

structure PyDateTime where
  year : Nat
  month : Nat
  day : Nat
  hour : Nat
  minute : Nat
  second : Nat
  deriving DecidableEq, Repr

/-- Gregorian leap-year rule, as used by `datetime`. -/
def isLeap (y : Nat) : Bool := (y % 4 = 0 && y % 100 ≠ 0) || y % 400 = 0

def daysInMonth (y m : Nat) : Nat :=
  if m = 2 then (if isLeap y then 29 else 28)
  else if m = 4 ∨ m = 6 ∨ m = 9 ∨ m = 11 then 30
  else 31

def digitVal (c : Char) : Option Nat :=
  if 48 ≤ c.toNat ∧ c.toNat ≤ 57 then some (c.toNat - 48) else none

def num2 (a b : Char) : Option Nat :=
  match digitVal a, digitVal b with
  | some x, some y => some (10 * x + y)
  | _, _ => none

def num4 (a b c d : Char) : Option Nat :=
  match digitVal a, digitVal b, digitVal c, digitVal d with
  | some w, some x, some y, some z => some (1000 * w + 100 * x + 10 * y + z)
  | _, _, _, _ => none

/-- Field validation performed by `datetime.fromisoformat` (raise = `none`). -/
def mkValid (y mo d h mi s : Nat) : Option PyDateTime :=
  if 1 ≤ mo ∧ mo ≤ 12 ∧ 1 ≤ d ∧ d ≤ daysInMonth y mo ∧ h ≤ 23 ∧ mi ≤ 59 ∧ s ≤ 59
  then some ⟨y, mo, d, h, mi, s⟩ else none

/-- `datetime.fromisoformat` restricted to the `YYYY-MM-DDTHH:MM:SS` shape the
program feeds it (`watched_at` with the trailing `Z` sliced off). -/
def parseIso (str : String) : Option PyDateTime :=
  match str.data with
  | [y1, y2, y3, y4, '-', m1, m2, '-', d1, d2, 'T', h1, h2, ':', i1, i2, ':', s1, s2] =>
    match num4 y1 y2 y3 y4, num2 m1 m2, num2 d1 d2, num2 h1 h2, num2 i1 i2, num2 s1 s2 with
    | some y, some mo, some d, some h, some mi, some s => mkValid y mo d h mi s
    | _, _, _, _, _, _ => none
  | _ => none

/-- Zero-padded 2-digit rendering (`f"{n:02}"`, also `isoformat` fields). -/
def pad2 (n : Nat) : String := if n < 10 then "0" ++ toString n else toString n

/-- Zero-padded 4-digit year rendering of `isoformat`. -/
def pad4 (n : Nat) : String :=
  if n < 10 then "000" ++ toString n
  else if n < 100 then "00" ++ toString n
  else if n < 1000 then "0" ++ toString n
  else toString n

/-- `datetime.isoformat()` at second precision (microsecond = 0). -/
def formatIso (dt : PyDateTime) : String :=
  pad4 dt.year ++ "-" ++ pad2 dt.month ++ "-" ++ pad2 dt.day ++ "T" ++
    pad2 dt.hour ++ ":" ++ pad2 dt.minute ++ ":" ++ pad2 dt.second

/-- Step one day back in the Gregorian calendar. -/
def prevDay : Nat × Nat × Nat → Nat × Nat × Nat
  | (y, m, d) =>
    if 1 < d then (y, m, d - 1)
    else if 1 < m then (y, m - 1, daysInMonth y (m - 1))
    else (y - 1, 12, 31)

def subDays : Nat × Nat × Nat → Nat → Nat × Nat × Nat
  | ymd, 0 => ymd
  | ymd, n + 1 => subDays (prevDay ymd) n

/-- `dt - timedelta(minutes=r)` on naive datetimes: borrow whole days as
needed, keep the second component (a minute delta never alters seconds). -/
def subMinutes (dt : PyDateTime) (r : Nat) : PyDateTime :=
  let tod := dt.hour * 60 + dt.minute
  if r ≤ tod then
    let t := tod - r
    ⟨dt.year, dt.month, dt.day, t / 60, t % 60, dt.second⟩
  else
    let daysBack := (r - tod + 1439) / 1440
    let t := tod + daysBack * 1440 - r
    let ymd := subDays (dt.year, dt.month, dt.day) daysBack
    ⟨ymd.1, ymd.2.1, ymd.2.2, t / 60, t % 60, dt.second⟩

/-- Python `s[:-1]` on strings. -/
def strDropLast (s : String) : String := ⟨s.data.dropLast⟩

/-- `item['movie'].get('year', 'N/A')` as rendered into the title. -/
def yearStr : Option Nat → String
  | some y => toString y
  | none => "N/A"

/-- `process_history_item` (src/sync.py lines 464-487): derive the canonical
(description, start, end) triple handed to `TogglAPI.create_entry`; `none`
models `datetime.fromisoformat` raising on a malformed `watched_at`.
The title prefixes reproduce src/sync.py's literal bytes, which are the
MacRoman mojibake of the intended emoji: the episode prefix is
U+F8FF `ü` `ì` `∫` (for `📺`), the movie prefix U+F8FF `ü` `é` `û` `Ô` `∏` `è`
(for `🎞️`); the sibling src/trakt.py carries the true emoji. -/
def processHistoryItem (item : HistoryEntry) : Option (String × String × String) :=
  let watched := item.watched_at
  let title :=
    if item.etype = "episode" then
      "\uF8FFüì∫ " ++ item.showTitle ++ " - S" ++ pad2 item.episodeSeason ++ "E" ++
        pad2 item.episodeNumber ++ " - " ++ item.episodeTitle
    else
      "\uF8FFüéûÔ∏è " ++ item.movieTitle ++ " (" ++ yearStr item.movieYear ++ ")"
  let runtime :=
    if item.etype = "episode" then item.episodeRuntime else item.movieRuntime.getD 0
  match parseIso (strDropLast watched) with
  | none => none
  | some endDt => some (title, formatIso (subMinutes endDt runtime) ++ "Z", watched)


theorem mkValid_minute_le {y mo d h mi s : Nat} {dt : PyDateTime}
    (hv : mkValid y mo d h mi s = some dt) : dt.minute ≤ 59 := by
  unfold mkValid at hv
  split_ifs at hv with hcond
  · cases hv
    exact hcond.2.2.2.2.2.1

theorem parseIso_minute_lt {str : String} {dt : PyDateTime}
    (hp : parseIso str = some dt) : dt.minute < 60 := by
  unfold parseIso at hp
  split at hp
  · split at hp
    · exact Nat.lt_succ_of_le (mkValid_minute_le hp)
    · cases hp
  · cases hp

theorem subMinutes_zero (dt : PyDateTime) (hm : dt.minute < 60) :
    subMinutes dt 0 = dt := by
  obtain ⟨y, mo, d, hh, mi, ss⟩ := dt
  have hm' : mi < 60 := hm
  have h1 : (hh * 60 + mi) / 60 = hh := by omega
  have h2 : (hh * 60 + mi) % 60 = mi := by omega
  simp [subMinutes, h1, h2]

theorem strDropLast_append (s : String) : strDropLast (s ++ "Z") = s := by
  obtain ⟨l⟩ := s
  show String.mk ((l ++ ['Z']).dropLast) = String.mk l
  rw [List.dropLast_concat]

/-! ### Claim theorems for the Matcher/Creator triple derivation -/

/-- Scenario A's source event, as a `HistoryEntry`. -/
def scenarioAItem : HistoryEntry :=
  { id := 100, etype := "episode", movieTraktId := none, episodeTraktId := some 42,
    watched_at := "2025-01-01T14:00:00Z", showTitle := "Breaking Bad",
    episodeSeason := 1, episodeNumber := 1, episodeTitle := "Pilot",
    episodeRuntime := 45, movieTitle := "", movieYear := none, movieRuntime := none }

/-- C7: evaluating `process_history_item` at Scenario A's event.  The start
and end instants come out as claimed, but the description does not: the title
literal in src/sync.py is mojibake, so the code derives
`"\uF8FFüì∫ Breaking Bad - S01E01 - Pilot"`, which differs from the claimed
`"📺 Breaking Bad - S01E01 - Pilot"`. -/
theorem process_history_item_scenarioA :
    processHistoryItem scenarioAItem =
      some ("\uF8FFüì∫ Breaking Bad - S01E01 - Pilot",
            "2025-01-01T13:15:00Z", "2025-01-01T14:00:00Z") ∧
    ("\uF8FFüì∫ Breaking Bad - S01E01 - Pilot" : String) ≠
      "📺 Breaking Bad - S01E01 - Pilot" := by
  decide

/-- C10: a history item whose effective runtime is 0 (episodes with runtime 0,
movies with a missing or zero runtime) derives `start = end = watched_at` and
still produces a triple for the create call (the item is not skipped).  The
hypotheses say the watched-at value is a well-formed second-precision UTC
stamp: a parseable prefix followed by `"Z"`, whose canonical rendering is the
prefix itself. -/
theorem process_history_item_zero_runtime (item : HistoryEntry) (s : String)
    (dt : PyDateTime)
    (hr : (if item.etype = "episode" then item.episodeRuntime
           else item.movieRuntime.getD 0) = 0)
    (hw : item.watched_at = s ++ "Z")
    (hp : parseIso s = some dt)
    (hf : formatIso dt = s) :
    ∃ desc, processHistoryItem item = some (desc, item.watched_at, item.watched_at) := by
  have hmin : dt.minute < 60 := parseIso_minute_lt hp
  have hsub : subMinutes dt 0 = dt := subMinutes_zero dt hmin
  refine ⟨if item.etype = "episode" then
      "\uF8FFüì∫ " ++ item.showTitle ++ " - S" ++ pad2 item.episodeSeason ++ "E" ++
        pad2 item.episodeNumber ++ " - " ++ item.episodeTitle
    else
      "\uF8FFüéûÔ∏è " ++ item.movieTitle ++ " (" ++ yearStr item.movieYear ++ ")", ?_⟩
  simp only [processHistoryItem, hw, strDropLast_append, hp, hr, hsub, hf]

/-- C10, witnessed at a concrete zero-runtime movie event. -/
theorem process_history_item_zero_runtime_witness :
    ∃ desc, processHistoryItem
      { id := 11, etype := "movie", movieTraktId := some 9, episodeTraktId := none,
        watched_at := "2025-02-03T21:30:00Z", showTitle := "", episodeSeason := 0,
        episodeNumber := 0, episodeTitle := "", episodeRuntime := 0,
        movieTitle := "Short", movieYear := some 2020, movieRuntime := none } =
      some (desc, "2025-02-03T21:30:00Z", "2025-02-03T21:30:00Z") :=
  process_history_item_zero_runtime _ "2025-02-03T21:30:00"
    ⟨2025, 2, 3, 21, 30, 0⟩ (by decide) (by decide) (by decide) (by decide)

/-! ## Destination (Toggl) cache, rate-limit guard and Matcher/Creator

Embeds `TogglAPI` (src/toggl.py; the overlapping historical copy in
src/sync.py lines 245-461 is identical logic).  The mutable class attributes
`_cached_entries`, `_cache_timestamp`, `_rate_limited` form `TogglState`;
`_cache_duration` is the constant 300.  Network I/O is an oracle argument:
a GET of `/me/time_entries` yields a `FetchResult`, a create POST a
`PostResult`.  `now` is the value of `time.time()` at the call. -/

structure TimeEntry where
  /-- `entry["id"]`, used for deletion. -/
  id : Nat
  /-- `entry["description"]` (`""` when the field is missing or empty). -/
  description : String
  /-- `entry["start"]`, an ISO-8601 string. -/
  start : String
  /-- `entry.get("stop")`; `none` when absent (an open/running entry). -/
  stop : Option String
  /-- `entry.get("project_id")`. -/
  project_id : Option Nat
  /-- `entry.get("tags", [])`. -/
  tags : List String
  /-- `entry.get("wid")`. -/
  wid : Option Nat
  deriving DecidableEq, Repr

/-- The `TogglAPI` mutable state. -/
structure TogglState where
  cachedEntries : Option (List TimeEntry)
  cacheTimestamp : Option Int
  rateLimited : Bool
  deriving DecidableEq, Repr

/-- Outcome of one GET of the entries endpoint. -/
inductive FetchResult where
  | ok (es : List TimeEntry)
  | err (code : Nat)
  deriving DecidableEq, Repr

/-- What `get_cached_entries` returns (or raises). -/
inductive GetOutcome where
  /-- A list of entries (fresh or cached). -/
  | entries (es : List TimeEntry)
  /-- `None`, the rate-limited sentinel. -/
  | sentinel
  /-- A non-402 `HTTPError` propagates. -/
  | raised (code : Nat)
  deriving DecidableEq, Repr

/-- The refetch condition of `get_cached_entries`:
`force_refresh or cache is None or timestamp is None or now - ts > 300`. -/
def refetchCond (s : TogglState) (now : Int) (force : Bool) : Bool :=
  force || s.cachedEntries.isNone || s.cacheTimestamp.isNone ||
    (match s.cacheTimestamp with
     | some ts => decide (now - ts > 300)
     | none => true)

/-- `TogglAPI.get_cached_entries` (src/toggl.py lines 39-77).  Returns the
outcome, the successor state, whether a network fetch was issued, and whether
the one-time rate-limit warning was printed.  On a 402 the cache fields are
untouched, the flag is set, and the warning fires only if the flag was clear;
on success the fetch result is cached, the timestamp updated and the flag
cleared; a non-402 error raises with the state unchanged.  Without a refetch
the cached value is returned as-is (the `getD []` default is unreachable:
the refetch condition fails only when the cache is populated). -/
def getCachedEntries (s : TogglState) (now : Int) (force : Bool)
    (f : FetchResult) : GetOutcome × TogglState × Bool × Bool :=
  if refetchCond s now force then
    match f with
    | .ok es => (.entries es, ⟨some es, some now, false⟩, true, false)
    | .err code =>
      if code = 402 then (.sentinel, { s with rateLimited := true }, true, !s.rateLimited)
      else (.raised code, s, true, false)
  else
    (.entries (s.cachedEntries.getD []), s, false, false)

/-! ### Timestamp normalization (`TogglAPI.normalize_timestamp`) -/

/-- `timestamp.replace("Z", "+00:00")` on the underlying characters. -/
def replaceZ : List Char → List Char
  | [] => []
  | 'Z' :: rest => '+' :: '0' :: '0' :: ':' :: '0' :: '0' :: replaceZ rest
  | c :: rest => c :: replaceZ rest

/-- Consume an optional fractional-second part `.d…d` (the digits are dropped,
modelling `.replace(microsecond=0)`); `none` models a parse error. -/
def parseFrac : List Char → Option (List Char)
  | '.' :: rest =>
    let digits := rest.takeWhile (fun c => (digitVal c).isSome)
    if digits.isEmpty then none else some (rest.drop digits.length)
  | rest => some rest

/-- Parse an optional trailing UTC offset `±HH:MM`; `some none` = naive. -/
def parseOffset : List Char → Option (Option Int)
  | [] => some none
  | ['+', h1, h2, ':', m1, m2] =>
    match num2 h1 h2, num2 m1 m2 with
    | some hh, some mm =>
      if hh ≤ 23 ∧ mm ≤ 59 then some (some ((hh * 60 + mm : Nat) : Int)) else none
    | _, _ => none
  | ['-', h1, h2, ':', m1, m2] =>
    match num2 h1 h2, num2 m1 m2 with
    | some hh, some mm =>
      if hh ≤ 23 ∧ mm ≤ 59 then some (some (-((hh * 60 + mm : Nat) : Int))) else none
    | _, _ => none
  | _ => none

/-- `datetime.fromisoformat` on the timestamp shapes this program feeds it:
`YYYY-MM-DDTHH:MM:SS[.ffffff][±HH:MM]`.  Returns the wall-clock fields plus
the offset in minutes (`none` = naive). -/
def parseIsoAware (str : String) : Option (PyDateTime × Option Int) :=
  match str.data with
  | y1 :: y2 :: y3 :: y4 :: '-' :: m1 :: m2 :: '-' :: d1 :: d2 :: 'T' ::
      h1 :: h2 :: ':' :: i1 :: i2 :: ':' :: s1 :: s2 :: rest =>
    match num4 y1 y2 y3 y4, num2 m1 m2, num2 d1 d2, num2 h1 h2,
        num2 i1 i2, num2 s1 s2 with
    | some y, some mo, some d, some h, some mi, some s =>
      match mkValid y mo d h mi s with
      | none => none
      | some dt =>
        match parseFrac rest with
        | none => none
        | some rest2 =>
          match parseOffset rest2 with
          | none => none
          | some off => some (dt, off)
    | _, _, _, _, _, _ => none
  | _ => none

/-- `TogglAPI.normalize_timestamp` (src/toggl.py lines 34-37): substitute the
`Z` suffix, parse, drop microseconds.  `none` models `ValueError`. -/
def normalizeTimestamp (s : String) : Option (PyDateTime × Option Int) :=
  parseIsoAware ⟨replaceZ s.data⟩

/-- Days from 1970-01-01 of a civil date (Gregorian, proleptic). -/
def daysFromCivil (y m d : Int) : Int :=
  let yy := if m ≤ 2 then y - 1 else y
  let era := (if 0 ≤ yy then yy else yy - 399) / 400
  let yoe := yy - era * 400
  let mp := if 2 < m then m - 3 else m + 9
  let doy := (153 * mp + 2) / 5 + d - 1
  let doe := yoe * 365 + yoe / 4 - yoe / 100 + doy
  era * 146097 + doe - 719468

/-- Seconds from the epoch of the wall-clock fields. -/
def epochSeconds (dt : PyDateTime) : Int :=
  daysFromCivil dt.year dt.month dt.day * 86400 +
    ((dt.hour * 3600 + dt.minute * 60 + dt.second : Nat) : Int)

/-- Python `datetime.__eq__`: aware values compare as absolute instants,
naive values compare field-wise, and a naive value never equals an aware. -/
def normEqTimes : PyDateTime × Option Int → PyDateTime × Option Int → Bool
  | (a, none), (b, none) => decide (a = b)
  | (a, some oa), (b, some ob) =>
    decide (epochSeconds a - oa * 60 = epochSeconds b - ob * 60)
  | _, _ => false

/-- Python `set(xs) == set(ys)` on tag lists. -/
def setEqStr (a b : List String) : Bool :=
  a.all (fun x => b.contains x) && b.all (fun x => a.contains x)

/-- The configured destination context (`project_id`, `wid`, tags). -/
structure TogglConfig where
  projectId : Nat
  workspaceId : Nat
  tags : List String
  deriving DecidableEq, Repr

/-- What `entry_exists` returns (or raises). -/
inductive ExistsResult where
  | result (b : Bool)
  | raisedHTTP (code : Nat)
  | raisedValue
  deriving DecidableEq, Repr

/-- The match condition of the `entry_exists` scan: description, normalized
start, normalized stop (an absent stop never matches — `False` branch of the
conditional expression), project id, tag set, workspace id. -/
def entryMatches (cfg : TogglConfig) (desc : String)
    (stn etn : PyDateTime × Option Int) (e : TimeEntry)
    (entryStart : PyDateTime × Option Int)
    (entryEnd : Option (PyDateTime × Option Int)) : Bool :=
  decide (e.description = desc) && normEqTimes entryStart stn &&
    (match entryEnd with
     | some ee => normEqTimes ee etn
     | none => false) &&
    decide (e.project_id = some cfg.projectId) &&
    setEqStr e.tags cfg.tags &&
    decide (e.wid = some cfg.workspaceId)

/-- The `for entry in entries` scan of `entry_exists`: normalize each entry's
start, normalize its stop when truthy (absent or empty stop gives `None`),
first full match wins, fall through to `False`.  A malformed entry timestamp
raises `ValueError`. -/
def scanEntries (cfg : TogglConfig) (desc : String)
    (stn etn : PyDateTime × Option Int) : List TimeEntry → ExistsResult
  | [] => .result false
  | e :: rest =>
    match normalizeTimestamp e.start with
    | none => .raisedValue
    | some entryStart =>
      match e.stop with
      | none =>
        if entryMatches cfg desc stn etn e entryStart none then .result true
        else scanEntries cfg desc stn etn rest
      | some st =>
        if st = "" then
          if entryMatches cfg desc stn etn e entryStart none then .result true
          else scanEntries cfg desc stn etn rest
        else
          match normalizeTimestamp st with
          | none => .raisedValue
          | some x =>
            if entryMatches cfg desc stn etn e entryStart (some x) then .result true
            else scanEntries cfg desc stn etn rest

/-- `TogglAPI.entry_exists` (src/toggl.py lines 79-103): consult the cache
(`get_cached_entries()` with defaults), return `True` on the rate-limited
sentinel, otherwise normalize the query pair and scan. -/
def entryExists (cfg : TogglConfig) (s : TogglState) (now : Int) (f : FetchResult)
    (desc startT endT : String) : ExistsResult × TogglState :=
  let g := getCachedEntries s now false f
  match g.1 with
  | .sentinel => (.result true, g.2.1)
  | .raised c => (.raisedHTTP c, g.2.1)
  | .entries es =>
    match normalizeTimestamp startT, normalizeTimestamp endT with
    | some stn, some etn => (scanEntries cfg desc stn etn es, g.2.1)
    | _, _ => (.raisedValue, g.2.1)

/-- Outcome of the create POST. -/
inductive PostResult where
  | ok
  | errCode (code : Nat)
  deriving DecidableEq, Repr

/-- What `create_entry` does: skip, create, log a failure, or raise. -/
inductive CreateResult where
  | created
  | skippedExists
  | skippedRateLimited
  | failedLogged (code : Nat)
  | raised402
  | raisedHTTP (code : Nat)
  | raisedValue
  deriving DecidableEq, Repr

/-- `TogglAPI.create_entry` (src/toggl.py lines 105-142).  Returns the
outcome, the successor state, and whether the create POST was issued.  On a
successful POST the cache is invalidated; a 402 sets the rate-limit flag and
re-raises; any other POST failure is logged and swallowed. -/
def createEntry (cfg : TogglConfig) (s : TogglState) (now : Int) (f : FetchResult)
    (p : PostResult) (desc startT endT : String) : CreateResult × TogglState × Bool :=
  match entryExists cfg s now f desc startT endT with
  | (.raisedHTTP c, s1) => (.raisedHTTP c, s1, false)
  | (.raisedValue, s1) => (.raisedValue, s1, false)
  | (.result true, s1) =>
    ((if s1.rateLimited then .skippedRateLimited else .skippedExists), s1, false)
  | (.result false, s1) =>
    match p with
    | .ok => (.created, { s1 with cachedEntries := none }, true)
    | .errCode code =>
      if code = 402 then (.raised402, { s1 with rateLimited := true }, true)
      else (.failedLogged code, s1, true)

/-! ### Claim theorems for the rate-limit guard and the Destination Cache -/

/-- C4 counterexample: starting from the initial state, a 402 on a cache fetch
sets the flag, but a later successful cache fetch resets it to false — the
flag is not monotone within a run (`_rate_limited = False` on fetch success,
src/toggl.py line 63). -/
theorem rate_limit_flag_reset_cex :
    (getCachedEntries ⟨none, none, false⟩ 0 false (.err 402)).2.1.rateLimited = true ∧
    (getCachedEntries
      ((getCachedEntries ⟨none, none, false⟩ 0 false (.err 402)).2.1)
      1 false (.ok [])).2.1.rateLimited = false := by
  decide

/-- Helper: `entry_exists` leaves exactly the state of its internal
`get_cached_entries()` call. -/
theorem entryExists_state (cfg : TogglConfig) (s : TogglState) (now : Int)
    (f : FetchResult) (d a b : String) :
    (entryExists cfg s now f d a b).2 = (getCachedEntries s now false f).2.1 := by
  unfold entryExists
  generalize getCachedEntries s now false f = g
  obtain ⟨o, s1, fetched, warned⟩ := g
  cases o with
  | sentinel => rfl
  | raised c => rfl
  | entries es =>
    cases normalizeTimestamp a <;> cases normalizeTimestamp b <;> rfl

/-- C4 amended: once the flag is set, no operation other than a successful
cache refetch resets it — under any fetch outcome that is not a success, the
flag survives `get_cached_entries`, `entry_exists` and `create_entry`. -/
theorem rate_limit_flag_reset_only_by_fetch_success
    (cfg : TogglConfig) (s : TogglState) (now : Int) (force : Bool)
    (f : FetchResult) (p : PostResult) (d a b : String)
    (h : s.rateLimited = true)
    (hf : ∀ es, f ≠ FetchResult.ok es) :
    (getCachedEntries s now force f).2.1.rateLimited = true ∧
    (entryExists cfg s now f d a b).2.rateLimited = true ∧
    (createEntry cfg s now f p d a b).2.1.rateLimited = true := by
  have hget : ∀ fc, (getCachedEntries s now fc f).2.1.rateLimited = true := by
    intro fc
    cases f with
    | ok es => exact absurd rfl (hf es)
    | err code =>
      unfold getCachedEntries
      split
      · by_cases hc : code = 402
        · simp [hc]
        · simp [hc, h]
      · simpa using h
  have hex : (entryExists cfg s now f d a b).2.rateLimited = true := by
    rw [entryExists_state]
    exact hget false
  refine ⟨hget force, hex, ?_⟩
  unfold createEntry
  cases hE : entryExists cfg s now f d a b with
  | mk er s1 =>
    rw [hE] at hex
    have hs1 : s1.rateLimited = true := hex
    cases er with
    | raisedHTTP c => simpa using hs1
    | raisedValue => simpa using hs1
    | result bl =>
      cases bl with
      | true => simpa using hs1
      | false =>
        cases p with
        | ok => simpa using hs1
        | errCode code =>
          by_cases hc : code = 402
          · simp [hc]
          · simp [hc, hs1]

/-- C4 amended, witnessed: flag already set, 402 fetch again — all three
operations leave it set. -/
theorem rate_limit_flag_reset_only_by_fetch_success_witness :
    (getCachedEntries ⟨none, none, true⟩ 5 false (.err 402)).2.1.rateLimited = true ∧
    (entryExists ⟨1, 2, []⟩ ⟨none, none, true⟩ 5 (.err 402) "d" "s" "e").2.rateLimited = true ∧
    (createEntry ⟨1, 2, []⟩ ⟨none, none, true⟩ 5 (.err 402) .ok "d" "s" "e").2.1.rateLimited = true :=
  rate_limit_flag_reset_only_by_fetch_success ⟨1, 2, []⟩ ⟨none, none, true⟩ 5 false
    (.err 402) .ok "d" "s" "e" rfl (fun _ hcon => FetchResult.noConfusion hcon)

/-- C5 counterexample: after the first 402 left the cache empty and the flag
set, the very next `get_cached_entries` call issues another network fetch
(third component `true`) — the rate-limited state does not suppress
refetching. -/
theorem cache_rate_limited_refetches_cex :
    (getCachedEntries ⟨none, none, false⟩ 0 false (.err 402)).2.1 =
      (⟨none, none, true⟩ : TogglState) ∧
    (getCachedEntries ⟨none, none, true⟩ 1 false (.err 402)).2.2.1 = true := by
  decide

/-- C5 amended: while the flag is set, a `get` call never re-warns; it
re-fetches exactly when the ordinary refetch condition (force, empty cache or
expired TTL) holds — returning the sentinel again if that fetch hits a 402 —
and when the cache is fresh it returns the previously cached value, not the
sentinel. -/
theorem cache_rate_limited_behavior (s : TogglState) (now : Int) (force : Bool)
    (f : FetchResult) (h : s.rateLimited = true) :
    (getCachedEntries s now force f).2.2.2 = false ∧
    (refetchCond s now force = false →
      getCachedEntries s now force f =
        (.entries (s.cachedEntries.getD []), s, false, false)) ∧
    (refetchCond s now force = true → f = .err 402 →
      getCachedEntries s now force f = (.sentinel, s, true, false)) := by
  obtain ⟨c, t, rl⟩ := s
  have hrl : rl = true := h
  subst hrl
  refine ⟨?_, ?_, ?_⟩
  · unfold getCachedEntries
    split
    · cases f with
      | ok _ => rfl
      | err code =>
        by_cases hc : code = 402
        · simp [hc]
        · simp [hc]
    · rfl
  · intro hrc
    unfold getCachedEntries
    rw [hrc]
    rfl
  · intro hrc hf
    subst hf
    unfold getCachedEntries
    rw [hrc]
    rfl

/-- C5 amended, witnessed: empty rate-limited cache, second 402 fetch. -/
theorem cache_rate_limited_behavior_witness :
    getCachedEntries ⟨none, none, true⟩ 1 false (.err 402) =
      (.sentinel, ⟨none, none, true⟩, true, false) :=
  (cache_rate_limited_behavior ⟨none, none, true⟩ 1 false (.err 402) rfl).2.2 rfl rfl

/-- C6: fail-closed existence — whenever the cache consultation yields the
rate-limited sentinel, `entry_exists` answers `True` for every query triple,
and `create_entry` therefore returns without issuing the create POST. -/
theorem exists_fail_closed (cfg : TogglConfig) (s : TogglState) (now : Int)
    (f : FetchResult) (p : PostResult) (desc startT endT : String)
    (h : (getCachedEntries s now false f).1 = .sentinel) :
    (entryExists cfg s now f desc startT endT).1 = .result true ∧
    (createEntry cfg s now f p desc startT endT).2.2 = false := by
  have hex : (entryExists cfg s now f desc startT endT).1 = .result true := by
    simp only [entryExists]
    rw [h]
  refine ⟨hex, ?_⟩
  unfold createEntry
  cases hE : entryExists cfg s now f desc startT endT with
  | mk er s1 =>
    rw [hE] at hex
    have her : er = .result true := hex
    subst her
    rfl

/-- C6, witnessed: empty cache, 402 on the consultation fetch. -/
theorem exists_fail_closed_witness :
    (entryExists ⟨1, 2, []⟩ ⟨none, none, false⟩ 0 (.err 402) "d" "s" "e").1 =
      .result true ∧
    (createEntry ⟨1, 2, []⟩ ⟨none, none, false⟩ 0 (.err 402) .ok "d" "s" "e").2.2 =
      false :=
  exists_fail_closed ⟨1, 2, []⟩ ⟨none, none, false⟩ 0 (.err 402) .ok "d" "s" "e" rfl

/-! ### The step-3 sync loop of `main` (src/sync.py lines 517-526)

`for item in history: process_history_item(item)` inside a
`try/except HTTPError` that catches only the 402 raised by `create_entry`
(graceful "resume later" end); any other raised error crashes past `main`. -/

/-- How the per-item loop ends. -/
inductive LoopEnd where
  /-- All items were processed; the run prints the completion banner. -/
  | completed
  /-- A 402 from a create POST halted iteration; caught gracefully in `main`. -/
  | halted402
  /-- A non-402 `HTTPError` raised out of the loop (uncaught by `main`). -/
  | crashedHTTP (code : Nat)
  /-- A `ValueError` from timestamp parsing raised out of the loop. -/
  | crashedValue
  deriving DecidableEq, Repr

/-- The loop: each item comes with the oracle outcomes of its cache fetch and
its create POST.  Returns the final state, the number of items fully
processed (skips and logged failures both count — the loop moved on), and how
the loop ended. -/
def syncLoop (cfg : TogglConfig) (now : Int) (s : TogglState) :
    List (HistoryEntry × FetchResult × PostResult) → TogglState × Nat × LoopEnd
  | [] => (s, 0, .completed)
  | (item, f, p) :: rest =>
    match processHistoryItem item with
    | none => (s, 0, .crashedValue)
    | some (d, a, b) =>
      match createEntry cfg s now f p d a b with
      | (.raised402, s', _) => (s', 0, .halted402)
      | (.raisedHTTP c, s', _) => (s', 0, .crashedHTTP c)
      | (.raisedValue, s', _) => (s', 0, .crashedValue)
      | (_, s', _) =>
        let r := syncLoop cfg now s' rest
        (r.1, r.2.1 + 1, r.2.2)

/-- An entry whose timestamps normalize (no `ValueError` while scanning it). -/
def entryNormOk (e : TimeEntry) : Bool :=
  (normalizeTimestamp e.start).isSome &&
    (match e.stop with
     | some st => decide (st = "") || (normalizeTimestamp st).isSome
     | none => true)

/-- The cached entries, if any, all normalize. -/
def stateOk (s : TogglState) : Bool :=
  match s.cachedEntries with
  | some es => es.all entryNormOk
  | none => true

/-- Fetch outcomes that do not raise out of `get_cached_entries`: a success
whose entries normalize, or a 402 (turned into the sentinel). -/
def fetchOk : FetchResult → Bool
  | .ok es => es.all entryNormOk
  | .err code => decide (code = 402)

/-- The derived triple exists and its two instants normalize. -/
def tripleOk : Option (String × String × String) → Bool
  | some (_, a, b) => (normalizeTimestamp a).isSome && (normalizeTimestamp b).isSome
  | none => false

/-- Per-item environment for C9: well-formed item, non-raising fetch, and a
create POST that either succeeds or fails with a non-402 code. -/
def stepOk (x : HistoryEntry × FetchResult × PostResult) : Bool :=
  tripleOk (processHistoryItem x.1) && fetchOk x.2.1 &&
    (match x.2.2 with
     | PostResult.ok => true
     | PostResult.errCode code => decide (code ≠ 402))

theorem scanEntries_result (cfg : TogglConfig) (d : String)
    (stn etn : PyDateTime × Option Int) (es : List TimeEntry)
    (hes : es.all entryNormOk = true) :
    ∃ bl, scanEntries cfg d stn etn es = .result bl := by
  induction es with
  | nil => exact ⟨false, rfl⟩
  | cons e rest ih =>
    rw [List.all_cons, Bool.and_eq_true] at hes
    obtain ⟨he, hrest⟩ := hes
    rw [entryNormOk, Bool.and_eq_true] at he
    obtain ⟨hstart, hstop⟩ := he
    obtain ⟨entryStart, hns⟩ := Option.isSome_iff_exists.mp hstart
    rcases hsp : e.stop with _ | st
    · simp only [scanEntries, hns, hsp]
      split_ifs <;> first | exact ⟨true, rfl⟩ | exact ih hrest
    · rw [hsp] at hstop
      by_cases hst : st = ""
      · simp only [scanEntries, hns, hsp, hst]
        split_ifs <;> first | exact ⟨true, rfl⟩ | exact ih hrest
      · have hsome : (normalizeTimestamp st).isSome = true := by
          simpa [hst] using hstop
        obtain ⟨x, hx⟩ := Option.isSome_iff_exists.mp hsome
        simp only [scanEntries, hns, hsp, hst, hx]
        split_ifs <;> first | exact ⟨true, rfl⟩ | exact ih hrest

theorem getCachedEntries_ok (s : TogglState) (now : Int) (force : Bool)
    (f : FetchResult) (hs : stateOk s = true) (hf : fetchOk f = true) :
    ((∃ es, (getCachedEntries s now force f).1 = .entries es ∧
        es.all entryNormOk = true) ∨
      (getCachedEntries s now force f).1 = .sentinel) ∧
    stateOk (getCachedEntries s now force f).2.1 = true := by
  unfold getCachedEntries
  split
  · cases f with
    | ok es =>
      have hall : es.all entryNormOk = true := by simpa [fetchOk] using hf
      exact ⟨Or.inl ⟨es, rfl, hall⟩, by simpa [stateOk] using hall⟩
    | err code =>
      have hc : code = 402 := by simpa [fetchOk] using hf
      subst hc
      simp only [if_pos rfl]
      refine ⟨Or.inr rfl, ?_⟩
      simpa [stateOk] using hs
  · rename_i hnc
    rcases hce : s.cachedEntries with _ | es
    · exfalso
      apply hnc
      simp [refetchCond, hce]
    · refine ⟨Or.inl ⟨es, by simp [hce], ?_⟩, hs⟩
      simpa [stateOk, hce] using hs

theorem entryExists_ok (cfg : TogglConfig) (s : TogglState) (now : Int)
    (f : FetchResult) (d a b : String)
    (hs : stateOk s = true) (hf : fetchOk f = true)
    (ha : (normalizeTimestamp a).isSome = true)
    (hb : (normalizeTimestamp b).isSome = true) :
    (∃ bl, (entryExists cfg s now f d a b).1 = .result bl) ∧
    stateOk (entryExists cfg s now f d a b).2 = true := by
  have hg := getCachedEntries_ok s now false f hs hf
  constructor
  · obtain ⟨stn, hstn⟩ := Option.isSome_iff_exists.mp ha
    obtain ⟨etn, hetn⟩ := Option.isSome_iff_exists.mp hb
    simp only [entryExists]
    rcases hg.1 with ⟨es, hes, hall⟩ | hsent
    · rw [hes, hstn, hetn]
      obtain ⟨bl, hbl⟩ := scanEntries_result cfg d stn etn es hall
      exact ⟨bl, hbl⟩
    · rw [hsent]
      exact ⟨true, rfl⟩
  · rw [entryExists_state]
    exact hg.2

/-- Create outcomes that return normally (no exception propagates). -/
def nonRaising : CreateResult → Bool
  | .raised402 => false
  | .raisedHTTP _ => false
  | .raisedValue => false
  | _ => true

theorem createEntry_ok (cfg : TogglConfig) (s : TogglState) (now : Int)
    (f : FetchResult) (p : PostResult) (d a b : String)
    (hs : stateOk s = true) (hf : fetchOk f = true)
    (ha : (normalizeTimestamp a).isSome = true)
    (hb : (normalizeTimestamp b).isSome = true)
    (hp : ∀ c, p = PostResult.errCode c → c ≠ 402) :
    nonRaising (createEntry cfg s now f p d a b).1 = true ∧
    stateOk (createEntry cfg s now f p d a b).2.1 = true := by
  have he := entryExists_ok cfg s now f d a b hs hf ha hb
  unfold createEntry
  cases hE : entryExists cfg s now f d a b with
  | mk er s1 =>
    rw [hE] at he
    obtain ⟨⟨bl, hbl⟩, hs1⟩ := he
    have her : er = .result bl := hbl
    subst her
    cases bl with
    | false =>
      cases p with
      | ok => exact ⟨rfl, rfl⟩
      | errCode code =>
        have hc : code ≠ 402 := hp code rfl
        dsimp only
        rw [if_neg hc]
        exact ⟨rfl, hs1⟩
    | true =>
      constructor
      · cases hrl : s1.rateLimited <;> simp [hrl, nonRaising]
      · exact hs1

/-- C9: while every fetch is non-raising and every create POST failure is a
non-402 code, `create_entry` swallows the failures and the loop processes
every remaining source event, ending with the completion path — only a 402
would halt it. -/
theorem create_failures_nonfatal (cfg : TogglConfig) (now : Int) (s : TogglState)
    (trace : List (HistoryEntry × FetchResult × PostResult))
    (hs : stateOk s = true)
    (h : ∀ x ∈ trace, stepOk x = true) :
    (syncLoop cfg now s trace).2.2 = .completed ∧
    (syncLoop cfg now s trace).2.1 = trace.length := by
  induction trace generalizing s with
  | nil => exact ⟨rfl, rfl⟩
  | cons x rest ih =>
    obtain ⟨item, f, p⟩ := x
    have hx := h _ (List.mem_cons_self _ _)
    rw [stepOk, Bool.and_eq_true, Bool.and_eq_true] at hx
    obtain ⟨⟨htr, hf⟩, hpb⟩ := hx
    rcases hpi : processHistoryItem item with _ | ⟨d, a, b⟩
    · rw [hpi] at htr
      cases htr
    · rw [hpi] at htr
      rw [tripleOk, Bool.and_eq_true] at htr
      obtain ⟨ha, hb⟩ := htr
      have hp' : ∀ c, p = PostResult.errCode c → c ≠ 402 := by
        intro c hc
        subst hc
        exact of_decide_eq_true hpb
      have hcr := createEntry_ok cfg s now f p d a b hs hf ha hb hp'
      unfold syncLoop
      rw [hpi]
      dsimp only
      cases hC : createEntry cfg s now f p d a b with
      | mk r srest =>
        obtain ⟨s', dp⟩ := srest
        rw [hC] at hcr
        obtain ⟨hnr, hs'⟩ := hcr
        have hrec := ih s' hs' (fun y hy => h y (List.mem_cons_of_mem _ hy))
        cases r with
        | raised402 => exact absurd hnr (by simp [nonRaising])
        | raisedHTTP c => exact absurd hnr (by simp [nonRaising])
        | raisedValue => exact absurd hnr (by simp [nonRaising])
        | created => exact ⟨hrec.1, by simp [hrec.2]⟩
        | skippedExists => exact ⟨hrec.1, by simp [hrec.2]⟩
        | skippedRateLimited => exact ⟨hrec.1, by simp [hrec.2]⟩
        | failedLogged c => exact ⟨hrec.1, by simp [hrec.2]⟩

/-- A well-formed movie event used to exercise the sync loop. -/
def simpleMovie : HistoryEntry :=
  { id := 21, etype := "movie", movieTraktId := some 5, episodeTraktId := none,
    watched_at := "2025-05-05T20:00:00Z", showTitle := "", episodeSeason := 0,
    episodeNumber := 0, episodeTitle := "", episodeRuntime := 0,
    movieTitle := "Heat", movieYear := some 1995, movieRuntime := some 170 }

/-- C9, witnessed: two pending events, the first create POST fails with 500 —
both items are still processed and the loop completes. -/
theorem create_failures_nonfatal_witness :
    (syncLoop ⟨1, 2, []⟩ 0 ⟨none, none, false⟩
      [(simpleMovie, .ok [], .errCode 500),
       (simpleMovie, .ok [], .ok)]).2.2 = LoopEnd.completed ∧
    (syncLoop ⟨1, 2, []⟩ 0 ⟨none, none, false⟩
      [(simpleMovie, .ok [], .errCode 500),
       (simpleMovie, .ok [], .ok)]).2.1 = 2 :=
  create_failures_nonfatal ⟨1, 2, []⟩ 0 ⟨none, none, false⟩
    [(simpleMovie, .ok [], .errCode 500), (simpleMovie, .ok [], .ok)]
    (by decide) (by decide)

/-! ## Destination Deduplicator (`TogglAPI.remove_duplicates`, src/toggl.py lines 144-243)

Pagination walks a `before` cursor; each GET outcome is an element of the
oracle page list (an exhausted oracle is the artificial `pagTruncated`).
Deletion outcomes come from an oracle `Nat → Nat` mapping entry id to HTTP
status.  `one_year_ago` (`datetime.now() - timedelta(days=365)`) is a
parameter.  Both boundary comparisons strip `tzinfo`, so they compare
wall-clock fields. -/

/-- `parse_time(…).replace(tzinfo=None)`: parse with the `Z` substitution and
keep only the wall-clock fields. -/
def parseTime (s : String) : Option PyDateTime :=
  (parseIsoAware ⟨replaceZ s.data⟩).map Prod.fst

/-- Python `datetime.__lt__` on naive values: field-lexicographic. -/
def pdLt (a b : PyDateTime) : Bool :=
  if a.year < b.year then true else if b.year < a.year then false
  else if a.month < b.month then true else if b.month < a.month then false
  else if a.day < b.day then true else if b.day < a.day then false
  else if a.hour < b.hour then true else if b.hour < a.hour then false
  else if a.minute < b.minute then true else if b.minute < a.minute then false
  else decide (a.second < b.second)

/-- `min(batch, key=lambda x: x.get("start", ""))`: first minimum wins. -/
def minByStart (b : TimeEntry) (bs : List TimeEntry) : TimeEntry :=
  bs.foldl (fun best x => if pyStrLt x.start best.start then x else best) b

/-- `entries.sort(key=lambda x: x.get("start", ""))` is a stable ascending
sort; stable insertion sort produces the same list. -/
def insertByStart (e : TimeEntry) : List TimeEntry → List TimeEntry
  | [] => [e]
  | x :: xs => if pyStrLt x.start e.start then x :: insertByStart e xs else e :: x :: xs

def sortByStart : List TimeEntry → List TimeEntry
  | [] => []
  | e :: rest => insertByStart e (sortByStart rest)

/-- One GET of a pagination step. -/
inductive PageResult where
  | ok (batch : List TimeEntry)
  | err (code : Nat)
  deriving Repr

/-- Outcome of the pagination phase. -/
inductive PagOutcome where
  /-- Loop ended (empty page or boundary crossed) with the accumulated
  project entries. -/
  | pagDone (acc : List TimeEntry)
  /-- 402 on a page GET: the pass returns, reported transient. -/
  | pagRateLimited
  /-- Any other HTTP error re-raises (fatal). -/
  | pagFatal (code : Nat)
  /-- `parse_time` raised on a malformed start. -/
  | pagParseFail
  /-- The page oracle ran out (modelling artifact, unreachable in theorems). -/
  | pagTruncated
  deriving Repr

/-- The `while True` pagination loop: filter each batch to the configured
project, stop on an empty batch or when the batch's oldest start precedes the
one-year boundary, otherwise continue with the next page. -/
def paginateLoop (pid : Nat) (oneYearAgo : PyDateTime) :
    List PageResult → List TimeEntry → PagOutcome
  | [], _ => .pagTruncated
  | .err code :: _, _ => if code = 402 then .pagRateLimited else .pagFatal code
  | .ok [] :: _, acc => .pagDone acc
  | .ok (b :: bs) :: rest, acc =>
    let projectEntries := (b :: bs).filter (fun e => decide (e.project_id = some pid))
    let acc' := acc ++ projectEntries
    let oldest := minByStart b bs
    match parseTime oldest.start with
    | none => .pagParseFail
    | some t =>
      if pdLt t oneYearAgo then .pagDone acc'
      else paginateLoop pid oneYearAgo rest acc'

/-- `entries_by_description`: insertion-ordered grouping, empty descriptions
excluded. -/
def addToGroup : List (String × List TimeEntry) → String → TimeEntry →
    List (String × List TimeEntry)
  | [], d, e => [(d, [e])]
  | (d', es) :: rest, d, e =>
    if d' = d then (d', es ++ [e]) :: rest else (d', es) :: addToGroup rest d e

def groupByDesc (entries : List TimeEntry) : List (String × List TimeEntry) :=
  entries.foldl
    (fun m e => if e.description = "" then m else addToGroup m e.description e) []

/-- The `for entry in entries_to_delete` loop of one group: every entry is
attempted; a 200 increments the deleted counter, any other status (402
included) is logged and the loop continues. -/
def deleteAttempts (ds : Nat → Nat) : List TimeEntry → List (Nat × Nat) × Nat
  | [] => ([], 0)
  | e :: rest =>
    let st := ds e.id
    let r := deleteAttempts ds rest
    ((e.id, st) :: r.1, (if st = 200 then 1 else 0) + r.2)

/-- The `for description, entries in duplicates.items()` loop: per group, sort
ascending by start and delete all but the last (most recent). -/
def runDeletions (ds : Nat → Nat) :
    List (String × List TimeEntry) → List (Nat × Nat) × Nat
  | [] => ([], 0)
  | (_, es) :: rest =>
    let toDelete := (sortByStart es).dropLast
    let g := deleteAttempts ds toDelete
    let r := runDeletions ds rest
    (g.1 ++ r.1, g.2 + r.2)

/-- Outcome of the whole deduplication pass. -/
inductive TogglDedupResult where
  /-- 402 during pagination: pass skipped, transient message, no deletions. -/
  | rateLimitedSkip
  /-- Non-402 HTTP error re-raised out of the pass. -/
  | fatal (code : Nat)
  /-- `ValueError` from a malformed start timestamp. -/
  | fatalParse
  /-- Page oracle exhausted (modelling artifact). -/
  | truncated
  /-- No group had more than one member. -/
  | noDuplicates
  /-- Deletion phase ran: the ordered (id, status) attempts and the count of
  successful deletions. -/
  | done (attempts : List (Nat × Nat)) (deleted : Nat)
  deriving DecidableEq, Repr

/-- `TogglAPI.remove_duplicates`: paginate, filter to the trailing year,
group by description, and delete all but the newest of each duplicate
group. -/
def togglRemoveDuplicates (pid : Nat) (oneYearAgo : PyDateTime)
    (pages : List PageResult) (ds : Nat → Nat) : TogglDedupResult :=
  match paginateLoop pid oneYearAgo pages [] with
  | .pagRateLimited => .rateLimitedSkip
  | .pagFatal c => .fatal c
  | .pagParseFail => .fatalParse
  | .pagTruncated => .truncated
  | .pagDone allEntries =>
    if allEntries.all (fun e => (parseTime e.start).isSome) then
      let filtered := allEntries.filter (fun e =>
        match parseTime e.start with
        | some t => !(pdLt t oneYearAgo)
        | none => false)
      let groups := groupByDesc filtered
      let dups := groups.filter (fun g => decide (1 < g.2.length))
      if dups.isEmpty then .noDuplicates
      else
        let r := runDeletions ds dups
        .done r.1 r.2
    else .fatalParse

/-! ### Claim theorems for the Destination Deduplicator -/

/-- An old entry outside the project, making the first batch cross the
one-year boundary. -/
def oldForeignEntry : TimeEntry :=
  { id := 99, description := "Old", start := "2023-01-01T00:00:00Z",
    stop := none, project_id := none, tags := [], wid := none }

/-- Three same-description project entries inside the window. -/
def dupX1 : TimeEntry :=
  { id := 1, description := "X", start := "2024-06-01T10:00:00Z",
    stop := none, project_id := some 5, tags := [], wid := none }

def dupX2 : TimeEntry :=
  { id := 2, description := "X", start := "2024-06-01T11:00:00Z",
    stop := none, project_id := some 5, tags := [], wid := none }

def dupX3 : TimeEntry :=
  { id := 3, description := "X", start := "2024-06-01T12:00:00Z",
    stop := none, project_id := some 5, tags := [], wid := none }

/-- C8 counterexample: the deletion of entry 1 answers 402, yet the pass does
not abort — it proceeds to delete entry 2 (status 200) and completes with
`done`, because `requests.delete` is not followed by `raise_for_status`; a
402 there is logged as an ordinary failed deletion. -/
theorem toggl_dedup_delete_402_continues_cex :
    togglRemoveDuplicates 5 ⟨2024, 1, 1, 0, 0, 0⟩
      [.ok [oldForeignEntry, dupX1, dupX2, dupX3]]
      (fun i => if i = 1 then 402 else 200) =
    .done [(1, 402), (2, 200)] 1 := by
  decide

/-- C8 amended: a quota-exceeded response on a pagination GET aborts the whole
pass immediately — from any loop state — with zero deletions, reported as the
transient skip rather than a fatal raise; but a 402 on an individual deletion
does not abort: the deletion loop attempts every scheduled entry regardless
of the statuses returned. -/
theorem toggl_dedup_402_abort_amended :
    (∀ pid b rest acc,
      paginateLoop pid b (PageResult.err 402 :: rest) acc = .pagRateLimited) ∧
    (∀ pid b rest ds,
      togglRemoveDuplicates pid b (PageResult.err 402 :: rest) ds = .rateLimitedSkip) ∧
    (∀ ds es, (deleteAttempts ds es).1 = es.map (fun e => (e.id, ds e.id))) := by
  refine ⟨?_, ?_, ?_⟩
  · intro pid b rest acc
    rfl
  · intro pid b rest ds
    rfl
  · intro ds es
    induction es with
    | nil => rfl
    | cons e rest ih => simp [deleteAttempts, ih]
